import Mathlib

/-!
Verification of the sentio-vnext ingestion/retrieval core against its
natural-language specification.

The Python sources are shallowly embedded as Lean definitions:

* `src/core/vector_store/qdrant_store.py` — `QdrantStore` (bootstrap,
  health check, `add_embeddings`, filter translation).  The remote Qdrant
  server state is modelled explicitly as a list of collections plus an
  association list of stored points keyed by (collection name, point id);
  `upsert` is insert-or-overwrite on that association list.
* `src/core/embeddings/providers/jina.py` — `JinaEmbedder.embed_async_many`
  and the retried request path.  The embedding cache helpers
  (`_check_cache` / `_store_cache`) and the `_retry` decorator live in
  `src.core.embeddings.base`, which is not part of the sources; those are
  modelled from the spec (see the individual doc comments).  The remote
  embedding service is modelled as a pure function from text to vector,
  which is exactly the behaviour of the in-repo offline path of
  `_execute_async_request` (a deterministic per-text mock vector).
* `src/core/ingest/ingest.py` — `DocumentIngestor` (directory load,
  cumulative stats, the load → chunk → embed → store pipeline).  The
  chunker and the embedder are abstracted as function parameters, and the
  filesystem is abstracted as a list of load outcomes, mirroring the call
  shape of the Python code.

Vectors are embedded as `List Int`: no arithmetic is ever performed on
vector components by the code under scrutiny, only structural moves.
-/

namespace Sentio

/-! ### Association-list primitives

`lookupEntry` returns the first binding of a key; `upsertEntry` replaces
the first binding of the key in place, or appends a fresh binding.  These
model Python `dict` access and Qdrant upsert semantics (last write wins
for a key, other keys untouched). -/

def lookupEntry {κ α : Type} [DecidableEq κ] (k : κ) : List (κ × α) → Option α
  | [] => none
  | (k2, v) :: rest => if k2 = k then some v else lookupEntry k rest

def upsertEntry {κ α : Type} [DecidableEq κ] (k : κ) (v : α) : List (κ × α) → List (κ × α)
  | [] => [(k, v)]
  | (k2, v2) :: rest =>
    if k2 = k then (k, v) :: rest else (k2, v2) :: upsertEntry k v rest

/-- Apply a list of (key, value) writes left to right, each one an upsert. -/
def upsertAll {κ α : Type} [DecidableEq κ] (m : List (κ × α)) (writes : List (κ × α)) :
    List (κ × α) :=
  writes.foldl (fun acc p => upsertEntry p.1 p.2 acc) m

/-! ### Qdrant vector-store model (`qdrant_store.py`) -/

/-- An embedding vector.  Components are opaque to all embedded code. -/
abbrev Vec := List Int

/-- A collection as known to the remote Qdrant server: name plus the
vector parameters it was created with (`rest.VectorParams`). -/
structure CollectionInfo where
  name : String
  size : Nat
  distance : String
deriving DecidableEq, Repr

/-- The constructor parameters of `QdrantStore` that the embedded
operations read (`collection_name`, `vector_size`, `distance`). -/
structure QdrantConfig where
  collection_name : String
  vector_size : Nat
  distance : String
deriving DecidableEq, Repr

/-- A stored point: vector plus payload.  The payload keys
(`content_payload_key` / `metadata_payload_key`) are fixed configuration
strings, so the payload is embedded structurally as its two fields. -/
structure QdrantPoint where
  vector : Vec
  content : String
  metadata : List (String × String)
deriving DecidableEq, Repr

/-- Remote Qdrant server state: the set of collections and the stored
points, keyed by (collection name, point id). -/
structure QdrantState where
  collections : List CollectionInfo
  points : List ((String × String) × QdrantPoint)
deriving DecidableEq, Repr

/-- Errors raised by the embedded store operations.
`configurationError` is the spec's `ConfigurationError`; `valueError` is
Python's `ValueError`. -/
inductive StoreError where
  | configurationError
  | valueError
deriving DecidableEq, Repr

/-- Embedding of `QdrantStore._bootstrap_collection` (qdrant_store.py,
lines 273-287): read the collection names from the server; if the
configured collection name is present, return at once; otherwise create
the collection with the configured vector size and distance.  The
`Except` result records that the Python method can raise; the body shows
which branches actually do. -/
def bootstrapCollection (cfg : QdrantConfig) (cols : List CollectionInfo) :
    Except StoreError (List CollectionInfo) :=
  if cfg.collection_name ∈ cols.map CollectionInfo.name then
    Except.ok cols
  else
    Except.ok (cols ++ [⟨cfg.collection_name, cfg.vector_size, cfg.distance⟩])

/-- Outcome of the liveness probe `self._client.get_collections()` as
observed by `health_check`: either the collection listing, or a raised
network exception carrying a message. -/
inductive ProbeOutcome where
  | ok (cols : List CollectionInfo)
  | failed (msg : String)
deriving DecidableEq, Repr

/-- Embedding of `QdrantStore.health_check` (qdrant_store.py, lines
98-105): probe the server; on success return `true`, on any exception
return `false`.  The function is total (the Python `except Exception`
captures every failure) and passes the server state through untouched. -/
def healthCheck (probe : ProbeOutcome) (st : QdrantState) : Bool × QdrantState :=
  match probe with
  | .ok _ => (true, st)
  | .failed _ => (false, st)

/-- A fragment of the Python values a caller can put into a filter dict:
scalars, plus one level of compound shapes (a JSON-object value such as a
range bound, or an array value such as an OR list).  `_convert_filter`
never inspects the value, so this fragment is enough to exercise every
shape the claims mention. -/
inductive FilterValue where
  | str (s : String)
  | int (n : Int)
  | boolean (b : Bool)
  | obj (fields : List (String × Int))
  | arr (elems : List String)
deriving DecidableEq, Repr

/-- One `rest.FieldCondition(key=..., match=rest.MatchValue(value=...))`:
an equality match of a payload field against a value. -/
structure FieldCondition (V : Type) where
  key : String
  value : V
deriving DecidableEq, Repr

/-- The translation result: `_convert_filter` returns either a bare
condition (single clause) or `rest.Filter(must=clauses)`. -/
inductive QdrantFilter (V : Type) where
  | single (c : FieldCondition V)
  | must (cs : List (FieldCondition V))
deriving DecidableEq, Repr

/-- Embedding of `QdrantStore._convert_filter` (qdrant_store.py, lines
289-304).  The function is polymorphic in the value type because the
Python code forwards each dict value unchanged into an equality match;
no value is ever inspected. -/
def convertFilter {V : Type} (metadataPayloadKey : String)
    (filterDict : List (String × V)) : QdrantFilter V :=
  let clauses := filterDict.map
    (fun kv => FieldCondition.mk (metadataPayloadKey ++ "." ++ kv.1) kv.2)
  match clauses with
  | [c] => QdrantFilter.single c
  | cs => QdrantFilter.must cs

/-- Semantics of one equality condition against a flat payload view. -/
def condHolds {V : Type} (payload : String → Option V) (c : FieldCondition V) : Prop :=
  payload c.key = some c.value

/-- Semantics of a translated filter: a bare condition must hold; a
`must` list is the conjunction of its conditions. -/
def filterHolds {V : Type} (payload : String → Option V) : QdrantFilter V → Prop
  | .single c => condHolds payload c
  | .must cs => ∀ c ∈ cs, condHolds payload c

/-- Embedding of the id-defaulting expression in
`QdrantStore.add_embeddings` (qdrant_store.py, line 172):
`str(ids[i]) if ids and i < len(ids) else str(i)`.  A `none` or empty
`ids` argument is falsy in Python, and an empty list also fails the
index bound, so the two embeddings agree. -/
def pointIdAt (ids : Option (List String)) (i : Nat) : String :=
  match ids with
  | some l => if i < l.length then l.getD i "" else toString i
  | none => toString i

/-- The point-building loop of `add_embeddings` (qdrant_store.py, lines
168-182): `for i, (text, embedding, metadata) in enumerate(zip(...))`,
rendered as recursion with an explicit index.  `zip` truncates at the
shortest list, as in Python. -/
def buildPoints (ids : Option (List String)) :
    Nat → List String → List Vec → List (List (String × String)) →
    List (String × QdrantPoint)
  | _, [], _, _ => []
  | _, _ :: _, [], _ => []
  | _, _ :: _, _ :: _, [] => []
  | i, t :: ts, e :: es, m :: ms =>
    (pointIdAt ids i, QdrantPoint.mk e t m) :: buildPoints ids (i + 1) ts es ms

/-- Embedding of `QdrantStore.add_embeddings` (qdrant_store.py, lines
140-188).  `metadatas or [{}] * len(texts_list)` replaces both `None`
and an empty list by the default; the two `ValueError` guards mirror
lines 161-166.  The final `self._client.upsert` call is the fold of
single-key upserts over the built points. -/
def addEmbeddings (cfg : QdrantConfig) (texts : List String) (embeddings : List Vec)
    (metadatas : Option (List (List (String × String)))) (ids : Option (List String))
    (st : QdrantState) : Except StoreError (List String × QdrantState) :=
  if texts.length ≠ embeddings.length then Except.error StoreError.valueError
  else
    let mds := match metadatas with
      | some (m :: ms) => m :: ms
      | _ => List.replicate texts.length []
    if mds.length ≠ texts.length then Except.error StoreError.valueError
    else
      let pts := buildPoints ids 0 texts embeddings mds
      Except.ok (pts.map Prod.fst,
        { st with points := upsertAll st.points (pts.map
            (fun p => ((cfg.collection_name, p.1), p.2))) })

/-! ### Jina embedding provider model (`jina.py`)

`JinaEmbedder` inherits cache handling (`_check_cache` / `_store_cache`)
and the `_retry` decorator from `src.core.embeddings.base`, a module that
is not among the sources.  Those pieces are modelled from the spec; the
control flow of `embed_async_many` and `_execute_async_request` is
embedded from `jina.py` itself. -/

/-- Process-local embedding cache.  The spec keys entries by
(provider, model, normalized text); provider and model are fixed for one
embedder instance, so the key degenerates to the text. -/
abbrev EmbCache := List (String × Vec)

/-- Modelled from the spec: `_check_cache` of the missing
`src.core.embeddings.base` module — "Cache lookup first: texts with a
cache hit are resolved without any network call"; a memo lookup of the
text's entry. -/
def checkCache (cache : EmbCache) (text : String) : Option Vec :=
  lookupEntry text cache

/-- Modelled from the spec: `_store_cache` of the missing
`src.core.embeddings.base` module — "every newly computed (text → vector)
pair is written into the cache"; a memo insert that overwrites any
previous entry for the text. -/
def storeCache (cache : EmbCache) (text : String) (vec : Vec) : EmbCache :=
  upsertEntry text vec cache

/-- The batching loop of `embed_async_many` (jina.py, lines 197-200):
`for i in range(0, len(uncached_texts), self.batch_size)` with slices
`uncached_texts[i : i + batch_size]`.  A zero `batch_size` would make the
Python `range` raise `ValueError`; the embedding returns `[]` there and
every theorem assumes a positive batch size. -/
def chunkBatches {α : Type} (bs : Nat) (l : List α) : List (List α) :=
  if h : bs = 0 ∨ l.length = 0 then []
  else l.take bs :: chunkBatches bs (l.drop bs)
termination_by l.length
decreasing_by
  push_neg at h
  simp only [List.length_drop]
  omega

/-- The uncached selection of `embed_async_many` (jina.py, lines
192-194): the texts whose entry in `cached_results` is `None`, kept in
input order. -/
def missTexts : List String → List (Option Vec) → List String
  | [], _ => []
  | _ :: _, [] => []
  | t :: ts, co :: cos =>
    match co with
    | none => t :: missTexts ts cos
    | some _ => missTexts ts cos

/-- The merge loop of `embed_async_many` (jina.py, lines 202-212): walk
the texts together with their cache-probe results; a hit contributes the
cached vector, a miss consumes the next fresh vector and writes it into
the cache.  The `([], cache)` fallback on an exhausted fresh list
corresponds to the Python `IndexError` on `batched_embeddings[fresh_idx]`
and is unreachable from `embedAsyncMany`, where the fresh list has
exactly one vector per miss. -/
def mergeFresh (cache : EmbCache) :
    List String → List (Option Vec) → List Vec → List Vec × EmbCache
  | [], _, _ => ([], cache)
  | _ :: _, [], _ => ([], cache)
  | t :: ts, co :: cos, fresh =>
    match co with
    | some c =>
      let r := mergeFresh cache ts cos fresh
      (c :: r.1, r.2)
    | none =>
      match fresh with
      | [] => ([], cache)
      | f :: fs =>
        let r := mergeFresh (storeCache cache t f) ts cos fs
        (f :: r.1, r.2)

/-- Embedding of `JinaEmbedder._get_embeddings` (jina.py, lines 141-166)
on its success path: one remote request per batch, answering one vector
per input text.  `oracle` is the remote service; the in-repo offline
path of `_execute_async_request` (jina.py, lines 114-132) computes a
deterministic vector from each text alone, which is exactly a pure
function of the text. -/
def getEmbeddings (oracle : String → Vec) (batch : List String) : List Vec :=
  batch.map oracle

/-- Result of one `embed_async_many` call: the returned vectors, the
cache afterwards, and the batch requests that were sent to the remote
service (empty list = no network call was made). -/
structure EmbedOutput where
  result : List Vec
  cache : EmbCache
  requests : List (List String)
deriving DecidableEq, Repr

/-- Embedding of `JinaEmbedder.embed_async_many` (jina.py, lines
168-215).  Branches in source order: empty input returns `[]`; if every
text has a cache hit the hits are returned with no request issued
(`[c for c in cached_results if c is not None]` is `filterMap id`);
otherwise the uncached texts are batched, embedded remotely and merged
back in input order, writing each fresh pair into the cache.  The
`_update_stats` bookkeeping of the missing base module touches neither
the result nor the cache and is elided. -/
def embedAsyncMany (batchSize : Nat) (oracle : String → Vec) (cache : EmbCache)
    (texts : List String) : EmbedOutput :=
  if texts = [] then ⟨[], cache, []⟩
  else
    let cachedResults := texts.map (checkCache cache)
    if cachedResults.all Option.isSome then
      ⟨cachedResults.filterMap id, cache, []⟩
    else
      let uncachedTexts := missTexts texts cachedResults
      let batches := chunkBatches batchSize uncachedTexts
      let batchedEmbeddings := (batches.map (getEmbeddings oracle)).flatten
      let merged := mergeFresh cache texts cachedResults batchedEmbeddings
      ⟨merged.1, merged.2, batches⟩

/-- A cache is consistent with the remote service when every entry holds
the vector the service computes for that text.  Every cache write the
embedded code performs stores a freshly computed vector, so the property
is an invariant of `embedAsyncMany`. -/
def cacheAgrees (oracle : String → Vec) (cache : EmbCache) : Prop :=
  ∀ t v, checkCache cache t = some v → v = oracle t

/-! ### Retry model (`_execute_async_request`)

The `_retry` decorator lives in the missing `src.core.embeddings.base`
module and is modelled from the spec: "Each batch call is retried up to a
configured maximum attempt count with exponential backoff on transient
failures (timeouts, rate limiting, 5xx-class responses); non-transient
failures ... are not retried and fail the whole call immediately."  The
backoff delay is wall-clock behaviour with no effect on values and is not
part of the functional model. -/

/-- Outcome of one attempt of the decorated request body, indexed by the
zero-based attempt number. -/
inductive AttemptOutcome where
  | success (data : List Vec)
  | transient
  | fatal
deriving DecidableEq, Repr

/-- Terminal embedding failures (`EmbeddingError`). -/
inductive EmbedFailure where
  | exhausted
  | fatal
deriving DecidableEq, Repr

/-- Result of a retried call: the outcome plus how many attempts were
actually made. -/
structure RetryResult where
  outcome : Except EmbedFailure (List Vec)
  attempts : Nat
deriving Repr

/-- Modelled from the spec: the `_retry(n)` combinator of the missing
`src.core.embeddings.base` module.  `made` counts attempts already made;
the second argument is how many attempts remain.  A success returns the
data; a non-transient failure raises at once; a transient failure retries
while attempts remain and otherwise escalates to a terminal error. -/
def retryCall (outcomes : Nat → AttemptOutcome) (made : Nat) :
    Nat → RetryResult
  | 0 => ⟨Except.error EmbedFailure.exhausted, made⟩
  | n + 1 =>
    match outcomes made with
    | .success data => ⟨Except.ok data, made + 1⟩
    | .fatal => ⟨Except.error EmbedFailure.fatal, made + 1⟩
    | .transient =>
      match n with
      | 0 => ⟨Except.error EmbedFailure.exhausted, made + 1⟩
      | m + 1 => retryCall outcomes (made + 1) (m + 1)

/-- The constructor parameters of `JinaEmbedder` that matter here
(jina.py, lines 37-66): `max_retries` is stored on the instance. -/
structure JinaConfig where
  model_name : String
  max_retries : Nat
  timeout : Nat
  batch_size : Nat
deriving DecidableEq, Repr

/-- Embedding of the retry wiring of `JinaEmbedder._execute_async_request`
(jina.py, line 96): the method is decorated with the literal `@_retry(3)`,
so every call makes at most 3 attempts.  The instance's `max_retries`
field is not consulted anywhere on this path. -/
def executeAsyncRequest (cfg : JinaConfig) (outcomes : Nat → AttemptOutcome) :
    RetryResult :=
  retryCall outcomes 0 3

/-! ### Document ingestion model (`ingest.py`) -/

/-- The document model (`src.core.models.document` is not among the
sources; the spec's Data-Model section gives id, text and an open
metadata map).  Chunks are documents too. -/
structure Doc where
  id : String
  text : String
  metadata : List (String × String)
deriving DecidableEq, Repr

/-- The cumulative statistics dictionary of `DocumentIngestor`
(ingest.py, lines 66-71). -/
structure IngestStats where
  documents_processed : Nat
  chunks_created : Nat
  embeddings_generated : Nat
  bytes_processed : Nat
deriving DecidableEq, Repr

/-- One directory entry as seen by `_load_documents_from_directory`: a
supported file either loads into a document of a given byte size, or
raises while being read and is skipped with a warning. -/
inductive LoadEntry where
  | failed (path : String)
  | loaded (doc : Doc) (sizeBytes : Nat)
deriving DecidableEq, Repr

/-- The successfully loaded (document, size) pairs of a directory scan,
in scan order. -/
def loadedEntries (entries : List LoadEntry) : List (Doc × Nat) :=
  entries.filterMap (fun e =>
    match e with
    | .loaded d n => some (d, n)
    | .failed _ => none)

/-- Embedding of `DocumentIngestor._load_documents_from_directory`
(ingest.py, lines 181-245).  A missing or empty directory raises
`ValueError` before any stats change; each successfully read file adds
its size to `bytes_processed`; zero loaded documents raises `ValueError`
(no file succeeded, so no stats changed); otherwise
`documents_processed` is assigned — not accumulated — the per-call count
(line 242, "Update the counter directly, don't rely on previous value").
The Python method mutates `self._stats` and either returns the documents
or raises, so the embedding returns `Option (List Doc)` together with
the stats afterwards. -/
def loadDocumentsFromDirectory (dirExists dirNonempty : Bool)
    (entries : List LoadEntry) (stats : IngestStats) :
    Option (List Doc) × IngestStats :=
  if !dirExists then (none, stats)
  else if !dirNonempty then (none, stats)
  else
    let ok := loadedEntries entries
    let stats1 := { stats with
      bytes_processed := stats.bytes_processed + (ok.map Prod.snd).sum }
    if ok.isEmpty then (none, stats1)
    else (some (ok.map Prod.fst),
      { stats1 with documents_processed := ok.length })

/-- The dict comprehension of `_generate_embeddings` (ingest.py, lines
274-277): `{chunks[i].id: embedding for i, embedding in
enumerate(embeddings)}` — later duplicate ids overwrite earlier ones. -/
def buildDocEmbeddings (chunks : List Doc) (embs : List Vec) :
    List (String × Vec) :=
  upsertAll [] ((chunks.map Doc.id).zip embs)

/-- The state a `DocumentIngestor` instance owns that the claims talk
about: its cumulative stats and the vector-store contents it writes to
(one collection, points keyed by chunk id; see
`_store_chunks_with_embeddings`, which upserts through the underlying
client). -/
structure IngestorState where
  stats : IngestStats
  store : List (String × QdrantPoint)
deriving DecidableEq, Repr

/-- Embedding of `DocumentIngestor.ingest_documents` (ingest.py, lines
347-410) together with the helpers it calls, for one call on an
initialized ingestor.  Parameters abstract the collaborators exactly at
their call boundaries: `chunker` is `self.chunker.split`, `embedMany` is
`self.embedder.embed_async_many` on the chunk texts (`Except` because it
can raise `EmbeddingError`), `storeOk` is whether the final client
upsert succeeds, and the directory scan is a list of load outcomes.  The
call either returns a copy of the stats (success) or raises (`none`);
in both cases the mutated instance state is the second component. -/
def ingestDocuments (chunker : List Doc → List Doc)
    (embedMany : List String → Except String (List Vec))
    (storeOk : Bool) (dirExists dirNonempty : Bool) (entries : List LoadEntry)
    (s : IngestorState) : Option IngestStats × IngestorState :=
  let currentDocsCount := s.stats.documents_processed
  match loadDocumentsFromDirectory dirExists dirNonempty entries s.stats with
  | (none, stats1) => (none, { s with stats := stats1 })
  | (some docs, stats1) =>
    let stats2 :=
      if docs.length > 0 ∧ stats1.documents_processed = 0 then
        { stats1 with documents_processed := currentDocsCount }
      else stats1
    let chunks := chunker docs
    let stats3 := { stats2 with
      chunks_created := stats2.chunks_created + chunks.length }
    match embedMany (chunks.map Doc.text) with
    | Except.error _ => (none, { s with stats := stats3 })
    | Except.ok embs =>
      let docEmb := buildDocEmbeddings chunks embs
      let stats4 := { stats3 with
        embeddings_generated := stats3.embeddings_generated + embs.length }
      let points := chunks.filterMap (fun c =>
        (lookupEntry c.id docEmb).map (fun v => (c.id, QdrantPoint.mk v c.text c.metadata)))
      if storeOk then
        (some stats4, { stats := stats4, store := upsertAll s.store points })
      else (none, { s with stats := stats4 })

/-- The texts `ingest_documents` hands to the embedder for a given
directory scan: the chunk texts of the successfully loaded documents. -/
def callChunkTexts (chunker : List Doc → List Doc) (entries : List LoadEntry) :
    List String :=
  (chunker ((loadedEntries entries).map Prod.fst)).map Doc.text

/-! ## Lemmas and theorems -/

/-! ### Association-list facts -/

theorem lookupEntry_upsertEntry {κ α : Type} [DecidableEq κ] (k k2 : κ) (v : α)
    (m : List (κ × α)) :
    lookupEntry k2 (upsertEntry k v m) =
      if k = k2 then some v else lookupEntry k2 m := by
  induction m with
  | nil => simp [upsertEntry, lookupEntry]
  | cons p rest ih =>
    obtain ⟨pk, pv⟩ := p
    by_cases hpk : pk = k
    · subst hpk
      by_cases h2 : pk = k2 <;> simp [upsertEntry, lookupEntry, h2]
    · simp only [upsertEntry, if_neg hpk, lookupEntry]
      by_cases h2 : pk = k2
      · subst h2
        have hk2 : ¬(k = pk) := fun h => hpk h.symm
        simp [hk2]
      · simp [h2, ih]

theorem lookupEntry_eq_none_iff {κ α : Type} [DecidableEq κ] (k : κ)
    (m : List (κ × α)) :
    lookupEntry k m = none ↔ k ∉ m.map Prod.fst := by
  induction m with
  | nil => simp [lookupEntry]
  | cons p rest ih =>
    obtain ⟨pk, pv⟩ := p
    by_cases h : pk = k
    · subst h
      simp [lookupEntry]
    · have hk : ¬(k = pk) := fun h2 => h h2.symm
      simp [lookupEntry, h, hk, ih]

theorem lookupEntry_append {κ α : Type} [DecidableEq κ] (k : κ)
    (a b : List (κ × α)) :
    lookupEntry k (a ++ b) = (lookupEntry k a).or (lookupEntry k b) := by
  induction a with
  | nil => simp [lookupEntry]
  | cons p rest ih =>
    obtain ⟨pk, pv⟩ := p
    by_cases h : pk = k <;> simp [lookupEntry, h, ih]

theorem lookupEntry_upsertAll {κ α : Type} [DecidableEq κ] (ws : List (κ × α))
    (m : List (κ × α)) (k : κ) :
    lookupEntry k (upsertAll m ws) =
      (lookupEntry k ws.reverse).or (lookupEntry k m) := by
  induction ws generalizing m with
  | nil => simp [upsertAll, lookupEntry]
  | cons w ws ih =>
    obtain ⟨wk, wv⟩ := w
    have hstep : upsertAll m ((wk, wv) :: ws) = upsertAll (upsertEntry wk wv m) ws := by
      simp [upsertAll]
    rw [hstep, ih, lookupEntry_upsertEntry]
    simp only [List.reverse_cons, lookupEntry_append, Option.or_assoc]
    congr 1
    by_cases h : wk = k <;> simp [lookupEntry, h]

/-! ### Claim C1 — collection bootstrap -/

/-- C1 (amended): bootstrap is an idempotent create-if-absent — when the
collection is already present it returns at once leaving the collection
list unchanged, when it is absent it creates it with the configured
dimension and distance, and a second bootstrap with the same parameters
is a no-op; however no dimension verification of an existing collection
is performed (see the counterexample). -/
theorem bootstrap_is_idempotent_create_if_absent (cfg : QdrantConfig)
    (cols : List CollectionInfo) :
    ∃ cols2,
      bootstrapCollection cfg cols = Except.ok cols2 ∧
      bootstrapCollection cfg cols2 = Except.ok cols2 ∧
      cols2 = (if cfg.collection_name ∈ cols.map CollectionInfo.name then cols
        else cols ++ [⟨cfg.collection_name, cfg.vector_size, cfg.distance⟩]) := by
  by_cases h : cfg.collection_name ∈ cols.map CollectionInfo.name
  · exact ⟨cols, by simp [bootstrapCollection, h], by simp [bootstrapCollection, h],
      by simp [h]⟩
  · refine ⟨cols ++ [CollectionInfo.mk cfg.collection_name cfg.vector_size cfg.distance],
      by simp [bootstrapCollection, h], ?_, by simp [h]⟩
    have hmem : cfg.collection_name ∈
        (cols ++ [CollectionInfo.mk cfg.collection_name cfg.vector_size cfg.distance]).map
          CollectionInfo.name := by
      simp
    simp [bootstrapCollection, hmem]

/-- C1 counterexample: a store configured with vector size 1024 against
an existing collection of size 512 — `_bootstrap_collection` returns
successfully with the collection list unchanged instead of raising
`ConfigurationError`; the dimension mismatch goes undetected. -/
theorem bootstrap_dimension_mismatch_not_detected :
    bootstrapCollection ⟨"docs", 1024, "Cosine"⟩ [⟨"docs", 512, "Cosine"⟩] =
      Except.ok [⟨"docs", 512, "Cosine"⟩] := by
  simp [bootstrapCollection]

/-! ### Claim C8 — filter translation -/

/-- C8 (amended): the translated filter holds of a payload exactly when
every key of the filter dict is an equality match on the corresponding
prefixed metadata field — flat equality conditions conjoined with AND —
for arbitrary dict values; no filter shape is rejected, because the
translation never inspects a value (see the counterexample for a
range-shaped value passed through as an equality match). -/
theorem convertFilter_is_conjoined_equality {V : Type} (metadataPayloadKey : String)
    (filterDict : List (String × V)) (payload : String → Option V) :
    filterHolds payload (convertFilter metadataPayloadKey filterDict) ↔
      ∀ kv ∈ filterDict,
        payload (metadataPayloadKey ++ "." ++ kv.1) = some kv.2 := by
  match filterDict with
  | [] =>
    show (∀ c ∈ ([] : List (FieldCondition V)), condHolds payload c) ↔ _
    simp
  | [kv] =>
    show condHolds payload _ ↔ _
    simp [condHolds]
  | kv1 :: kv2 :: rest =>
    show (∀ c ∈ (kv1 :: kv2 :: rest).map
        (fun kv => FieldCondition.mk (metadataPayloadKey ++ "." ++ kv.1) kv.2),
        condHolds payload c) ↔ _
    rw [List.forall_mem_map]
    exact Iff.rfl

/-- C8 counterexample: a range-shaped value (the object `gte 5`) and an
OR-shaped value (an array) are not rejected by `_convert_filter`; each is
silently translated into an equality match on the compound value, so no
error is raised for an unsupported filter shape. -/
theorem convertFilter_compound_shapes_pass_through :
    convertFilter "metadata" [("price", FilterValue.obj [("gte", 5)])] =
        QdrantFilter.single ⟨"metadata.price", FilterValue.obj [("gte", 5)]⟩ ∧
      convertFilter "metadata" [("tag", FilterValue.arr ["a", "b"])] =
        QdrantFilter.single ⟨"metadata.tag", FilterValue.arr ["a", "b"]⟩ := by
  constructor <;> rfl

/-! ### Claim C9 — health check -/

/-- C9: `health_check` is total (every probe failure is captured, none
propagates), never mutates the store state, and returns `true` exactly
when the liveness probe reached the server. -/
theorem healthCheck_total_and_pure (probe : ProbeOutcome) (st : QdrantState) :
    (healthCheck probe st).2 = st ∧
      ((healthCheck probe st).1 = true ↔ ∃ cols, probe = ProbeOutcome.ok cols) := by
  cases probe <;> simp [healthCheck]

/-! ### Claim C10 — positional default ids and overwrite -/

theorem buildPoints_fst_none (i : Nat) (ts : List String) (es : List Vec)
    (ms : List (List (String × String))) (h1 : ts.length = es.length)
    (h2 : ts.length = ms.length) :
    (buildPoints none i ts es ms).map Prod.fst =
      (List.range' i ts.length).map toString := by
  induction ts generalizing i es ms with
  | nil => simp [buildPoints]
  | cons t ts ih =>
    cases es with
    | nil => simp at h1
    | cons e es =>
      cases ms with
      | nil => simp at h2
      | cons m ms =>
        simp only [buildPoints, List.map_cons, List.length_cons]
        rw [List.range'_succ]
        simp only [List.map_cons]
        refine congrArg₂ List.cons rfl ?_
        exact ih (i + 1) es ms (by simpa using h1) (by simpa using h2)

theorem addEmbeddings_none_ok (cfg : QdrantConfig) (t : List String) (e : List Vec)
    (st : QdrantState) (h : t.length = e.length) :
    addEmbeddings cfg t e none none st =
      Except.ok ((List.range t.length).map toString,
        { st with points := (upsertAll st.points
            ((buildPoints none 0 t e (List.replicate t.length [])).map
              (fun p => ((cfg.collection_name, p.1), p.2)))) }) := by
  have hshape : addEmbeddings cfg t e none none st =
      (if t.length ≠ e.length then Except.error StoreError.valueError
       else if (List.replicate t.length ([] : List (String × String))).length ≠ t.length
         then Except.error StoreError.valueError
       else
         Except.ok ((buildPoints none 0 t e (List.replicate t.length [])).map Prod.fst,
           { st with points := (upsertAll st.points
               ((buildPoints none 0 t e (List.replicate t.length [])).map
                 (fun p => ((cfg.collection_name, p.1), p.2)))) })) := rfl
  rw [hshape, if_neg (fun hne => hne h),
    if_neg (fun hne => hne (List.length_replicate t.length [])),
    buildPoints_fst_none 0 t e _ h (List.length_replicate t.length []).symm,
    List.range_eq_range']

/-- C10: when `add_embeddings` receives no ids (or an ids list shorter
than the texts), the point id at position `i` defaults to the decimal
string of `i`; consequently two successive id-less calls of the same
size return the very same id list, and after the second call the store
is observationally identical to a store that only ever saw the second
call — the second call's points have overwritten the first call's. -/
theorem addEmbeddings_positional_ids_overwrite (cfg : QdrantConfig)
    (t1 t2 : List String) (e1 e2 : List Vec) (st : QdrantState) (n : Nat)
    (h1 : t1.length = n) (h2 : e1.length = n) (h3 : t2.length = n)
    (h4 : e2.length = n) :
    ∃ out st1 st2 st2o,
      addEmbeddings cfg t1 e1 none none st = Except.ok (out, st1) ∧
      addEmbeddings cfg t2 e2 none none st1 = Except.ok (out, st2) ∧
      addEmbeddings cfg t2 e2 none none st = Except.ok (out, st2o) ∧
      out = (List.range n).map toString ∧
      (∀ k, lookupEntry k st2.points = lookupEntry k st2o.points) ∧
      (∀ i, pointIdAt none i = toString i) ∧
      (∀ l i, l.length ≤ i → pointIdAt (some l) i = toString i) := by
  subst h1
  have o1 := addEmbeddings_none_ok cfg t1 e1 st (by omega)
  set w1 := (buildPoints none 0 t1 e1 (List.replicate t1.length [])).map
    (fun p => ((cfg.collection_name, p.1), p.2)) with hw1
  set st1 : QdrantState := { st with points := upsertAll st.points w1 } with hst1
  have o2 := addEmbeddings_none_ok cfg t2 e2 st1 (by omega)
  have o3 := addEmbeddings_none_ok cfg t2 e2 st (by omega)
  set w2 := (buildPoints none 0 t2 e2 (List.replicate t2.length [])).map
    (fun p => ((cfg.collection_name, p.1), p.2)) with hw2
  have houtlen : (List.range t2.length).map toString =
      (List.range t1.length).map (toString : Nat → String) := by rw [h3]
  rw [houtlen] at o2 o3
  have hkeys : w1.map Prod.fst = w2.map Prod.fst := by
    rw [hw1, hw2, List.map_map, List.map_map]
    have hcomp : ∀ (pts : List (String × QdrantPoint)),
        pts.map (Prod.fst ∘ fun p => ((cfg.collection_name, p.1), p.2)) =
          (pts.map Prod.fst).map (fun a => (cfg.collection_name, a)) := by
      intro pts
      rw [List.map_map]
      rfl
    rw [hcomp, hcomp,
      buildPoints_fst_none 0 t1 e1 _ (by omega) (List.length_replicate t1.length []).symm,
      buildPoints_fst_none 0 t2 e2 _ (by omega) (List.length_replicate t2.length []).symm,
      h3]
  refine ⟨(List.range t1.length).map toString, st1,
    { st1 with points := upsertAll st1.points w2 },
    { st with points := upsertAll st.points w2 },
    o1, o2, o3, rfl, ?_, fun i => rfl, ?_⟩
  · intro k
    simp only [hst1]
    rw [lookupEntry_upsertAll, lookupEntry_upsertAll, lookupEntry_upsertAll]
    cases hc : lookupEntry k w2.reverse with
    | some v => simp
    | none =>
      have hk2 : k ∉ (w2.map Prod.fst).reverse := by
        rw [← List.map_reverse]
        exact (lookupEntry_eq_none_iff k w2.reverse).mp hc
      have hk1 : lookupEntry k w1.reverse = none := by
        rw [lookupEntry_eq_none_iff, List.map_reverse, List.mem_reverse, hkeys]
        rw [List.mem_reverse] at hk2
        exact hk2
      simp [hk1]
  · intro l i hle
    simp [pointIdAt, Nat.not_lt.mpr hle]

/-- C10 witness: the overwrite theorem applied to two concrete one-point
calls on an initially empty store. -/
theorem addEmbeddings_positional_ids_overwrite_witness :
    (["a"] : List String).length = 1 ∧ ([[1]] : List Vec).length = 1 ∧
    (["b"] : List String).length = 1 ∧ ([[2]] : List Vec).length = 1 ∧
    (∃ out st1 st2 st2o,
      addEmbeddings ⟨"docs", 4, "Cosine"⟩ ["a"] [[1]] none none ⟨[], []⟩ =
        Except.ok (out, st1) ∧
      addEmbeddings ⟨"docs", 4, "Cosine"⟩ ["b"] [[2]] none none st1 =
        Except.ok (out, st2) ∧
      addEmbeddings ⟨"docs", 4, "Cosine"⟩ ["b"] [[2]] none none ⟨[], []⟩ =
        Except.ok (out, st2o) ∧
      out = (List.range 1).map toString ∧
      (∀ k, lookupEntry k st2.points = lookupEntry k st2o.points) ∧
      (∀ i, pointIdAt none i = toString i) ∧
      (∀ l i, l.length ≤ i → pointIdAt (some l) i = toString i)) :=
  ⟨rfl, rfl, rfl, rfl,
    addEmbeddings_positional_ids_overwrite ⟨"docs", 4, "Cosine"⟩ ["a"] ["b"]
      [[1]] [[2]] ⟨[], []⟩ 1 rfl rfl rfl rfl⟩

/-! ### Claim C5 — retry attempt count -/

/-- C5 evaluation: the retry path ignores the `max_retries` constructor
parameter.  With `max_retries = 1` and a service that fails transiently
on every attempt, `_execute_async_request` still makes 3 attempts — the
literal passed to the `_retry` decorator — before escalating.  The same
model does satisfy the spec's two-attempt example: a transient failure
on attempt 1 followed by a success on attempt 2 yields the successful
data after exactly 2 attempts, identical to an immediate success. -/
theorem executeAsyncRequest_ignores_max_retries :
    (executeAsyncRequest ⟨"jina-embeddings-v3", 1, 30, 100⟩
        (fun _ => AttemptOutcome.transient)).attempts = 3 ∧
      (executeAsyncRequest ⟨"jina-embeddings-v3", 1, 30, 100⟩
        (fun _ => AttemptOutcome.transient)).outcome =
          Except.error EmbedFailure.exhausted ∧
      (JinaConfig.mk "jina-embeddings-v3" 1 30 100).max_retries = 1 ∧
      executeAsyncRequest ⟨"jina-embeddings-v3", 3, 30, 100⟩
          (fun k => if k = 0 then AttemptOutcome.transient
            else AttemptOutcome.success [[5]]) =
        ⟨Except.ok [[5]], 2⟩ ∧
      (executeAsyncRequest ⟨"jina-embeddings-v3", 3, 30, 100⟩
          (fun _ => AttemptOutcome.success [[5]])).outcome =
        Except.ok [[5]] := by
  refine ⟨rfl, rfl, rfl, rfl, rfl⟩

/-! ### Claims C2 and C3 — ingestion pipeline -/

/-- C3 (amended): three of the four cumulative statistics —
chunks_created, embeddings_generated and bytes_processed — never
decrease across an ingest call, on any input, any outcome and any
collaborator behaviour (and hence are monotone across any sequence of
calls); documents_processed is excluded, because a successful load
assigns it the per-call count (see the counterexample). -/
theorem ingest_three_stats_monotone (chunker : List Doc → List Doc)
    (embedMany : List String → Except String (List Vec)) (storeOk : Bool)
    (dirExists dirNonempty : Bool) (entries : List LoadEntry)
    (s : IngestorState) :
    s.stats.chunks_created ≤
      (ingestDocuments chunker embedMany storeOk dirExists dirNonempty entries s).2.stats.chunks_created ∧
    s.stats.embeddings_generated ≤
      (ingestDocuments chunker embedMany storeOk dirExists dirNonempty entries s).2.stats.embeddings_generated ∧
    s.stats.bytes_processed ≤
      (ingestDocuments chunker embedMany storeOk dirExists dirNonempty entries s).2.stats.bytes_processed := by
  have hload : ∀ stats : IngestStats,
      ((loadDocumentsFromDirectory dirExists dirNonempty entries stats).2.chunks_created =
        stats.chunks_created) ∧
      ((loadDocumentsFromDirectory dirExists dirNonempty entries stats).2.embeddings_generated =
        stats.embeddings_generated) ∧
      (stats.bytes_processed ≤
        (loadDocumentsFromDirectory dirExists dirNonempty entries stats).2.bytes_processed) := by
    intro stats
    unfold loadDocumentsFromDirectory
    cases dirExists <;> cases dirNonempty <;> simp
    split <;> simp
  unfold ingestDocuments
  cases hl : loadDocumentsFromDirectory dirExists dirNonempty entries s.stats with
  | mk docsOpt stats1 =>
    have h1 := hload s.stats
    rw [hl] at h1
    cases docsOpt with
    | none => simpa using ⟨le_of_eq h1.1.symm, le_of_eq h1.2.1.symm, h1.2.2⟩
    | some docs =>
      simp only
      refine ⟨?_, ?_, ?_⟩ <;>
        (split <;> (try split) <;> (try split) <;> simp_all)

/-- C3 counterexample: a fresh ingestor processes a two-document
directory and then a one-document directory; `documents_processed` goes
from 2 down to 1 — the counter is overwritten with the per-call count,
so it is not monotonically non-decreasing across ingest calls. -/
theorem ingest_documents_processed_decreases :
    ((ingestDocuments (fun docs => docs)
        (fun ts => Except.ok (ts.map (fun _ => ([] : Vec)))) true true true
        [LoadEntry.loaded ⟨"d1", "alpha", []⟩ 5, LoadEntry.loaded ⟨"d2", "beta", []⟩ 4]
        ⟨⟨0, 0, 0, 0⟩, []⟩).2.stats.documents_processed = 2) ∧
    ((ingestDocuments (fun docs => docs)
        (fun ts => Except.ok (ts.map (fun _ => ([] : Vec)))) true true true
        [LoadEntry.loaded ⟨"d3", "gamma", []⟩ 7]
        (ingestDocuments (fun docs => docs)
          (fun ts => Except.ok (ts.map (fun _ => ([] : Vec)))) true true true
          [LoadEntry.loaded ⟨"d1", "alpha", []⟩ 5, LoadEntry.loaded ⟨"d2", "beta", []⟩ 4]
          ⟨⟨0, 0, 0, 0⟩, []⟩).2).2.stats.documents_processed = 1) := by
  constructor <;> rfl

/-- C2 (amended): if the embedder fails on the chunk texts of the call,
the whole ingest call fails — no stats dictionary is returned — and the
vector store is left untouched, so no chunk of the call is stored with a
missing or mismatched vector; however the cumulative stats observable on
the ingestor afterwards do already count the chunks created (and the
documents and bytes loaded) for the failed call (see the
counterexample). -/
theorem ingest_embed_failure_aborts_without_store (chunker : List Doc → List Doc)
    (embedMany : List String → Except String (List Vec)) (storeOk : Bool)
    (dirExists dirNonempty : Bool) (entries : List LoadEntry) (s : IngestorState)
    (msg : String)
    (hfail : embedMany (callChunkTexts chunker entries) = Except.error msg) :
    (ingestDocuments chunker embedMany storeOk dirExists dirNonempty entries s).1 = none ∧
    (ingestDocuments chunker embedMany storeOk dirExists dirNonempty entries s).2.store =
      s.store := by
  unfold ingestDocuments
  cases hl : loadDocumentsFromDirectory dirExists dirNonempty entries s.stats with
  | mk docsOpt stats1 =>
    cases docsOpt with
    | none => simp
    | some docs =>
      have hdocs : docs = (loadedEntries entries).map Prod.fst := by
        unfold loadDocumentsFromDirectory at hl
        cases dirExists with
        | false => simp at hl
        | true =>
          cases dirNonempty with
          | false => simp at hl
          | true =>
            simp only [Bool.not_true, Bool.false_eq_true, if_false] at hl
            by_cases hemp : (loadedEntries entries).isEmpty <;> simp [hemp] at hl
            exact hl.1.symm
      simp only
      rw [hdocs]
      rw [show (chunker ((loadedEntries entries).map Prod.fst)).map Doc.text =
        callChunkTexts chunker entries from rfl, hfail]
      simp

/-- C2 counterexample: a call whose embedder raises stores nothing — yet
afterwards the ingestor's observable stats claim 1 chunk created, 1
document processed and 5 bytes processed for work that was never durably
stored, refuting the claim that stats observable for a failed call count
no unstored work. -/
theorem ingest_failed_call_stats_count_unstored_work :
    ((ingestDocuments (fun docs => docs) (fun _ => Except.error "boom") true true true
        [LoadEntry.loaded ⟨"d1", "alpha", []⟩ 5] ⟨⟨0, 0, 0, 0⟩, []⟩).1 = none) ∧
    ((ingestDocuments (fun docs => docs) (fun _ => Except.error "boom") true true true
        [LoadEntry.loaded ⟨"d1", "alpha", []⟩ 5] ⟨⟨0, 0, 0, 0⟩, []⟩).2.store = []) ∧
    ((ingestDocuments (fun docs => docs) (fun _ => Except.error "boom") true true true
        [LoadEntry.loaded ⟨"d1", "alpha", []⟩ 5] ⟨⟨0, 0, 0, 0⟩, []⟩).2.stats =
      ⟨1, 1, 0, 5⟩) := by
  refine ⟨rfl, rfl, rfl⟩

/-- C2 witness: the abort theorem applied to a concrete failing embedder
over a one-document directory. -/
theorem ingest_embed_failure_aborts_without_store_witness :
    ((fun _ : List String => (Except.error "boom" : Except String (List Vec)))
        (callChunkTexts (fun docs => docs) [LoadEntry.loaded ⟨"d1", "alpha", []⟩ 5]) =
      Except.error "boom") ∧
    ((ingestDocuments (fun docs => docs) (fun _ => Except.error "boom") true true true
        [LoadEntry.loaded ⟨"d1", "alpha", []⟩ 5] ⟨⟨0, 0, 0, 0⟩, []⟩).1 = none ∧
      (ingestDocuments (fun docs => docs) (fun _ => Except.error "boom") true true true
        [LoadEntry.loaded ⟨"d1", "alpha", []⟩ 5] ⟨⟨0, 0, 0, 0⟩, []⟩).2.store = []) :=
  ⟨rfl, ingest_embed_failure_aborts_without_store (fun docs => docs)
    (fun _ => Except.error "boom") true true true
    [LoadEntry.loaded ⟨"d1", "alpha", []⟩ 5] ⟨⟨0, 0, 0, 0⟩, []⟩ "boom" rfl⟩

/-! ### Cache and batching facts for `embed_async_many` -/

theorem checkCache_storeCache (cache : EmbCache) (t t2 : String) (v : Vec) :
    checkCache (storeCache cache t v) t2 =
      if t = t2 then some v else checkCache cache t2 :=
  lookupEntry_upsertEntry t t2 v cache

theorem cacheAgrees_storeCache (oracle : String → Vec) (cache : EmbCache)
    (t : String) (hagr : cacheAgrees oracle cache) :
    cacheAgrees oracle (storeCache cache t (oracle t)) := by
  intro t2 v hv
  rw [checkCache_storeCache] at hv
  by_cases h : t = t2
  · rw [if_pos h] at hv
    cases hv
    rw [h]
  · rw [if_neg h] at hv
    exact hagr t2 v hv

theorem checkCache_preserved_storeCache (oracle : String → Vec) (cache : EmbCache)
    (t t2 : String) (v : Vec) (hagr : cacheAgrees oracle cache)
    (hv : checkCache cache t2 = some v) :
    checkCache (storeCache cache t (oracle t)) t2 = some v := by
  rw [checkCache_storeCache]
  by_cases h : t = t2
  · rw [if_pos h]
    have : v = oracle t2 := hagr t2 v hv
    rw [this, h]
  · rw [if_neg h]
    exact hv

theorem chunkBatches_flatten {α : Type} (bs : Nat) (hbs : 0 < bs) (l : List α) :
    (chunkBatches bs l).flatten = l := by
  induction l using chunkBatches.induct bs with
  | case1 x hx =>
    have hx2 : x = [] := by
      rcases hx with h0 | hlen
      · omega
      · exact List.length_eq_zero.mp hlen
    unfold chunkBatches
    rw [dif_pos hx, hx2]
    rfl
  | case2 x hx ih =>
    unfold chunkBatches
    rw [dif_neg hx, List.flatten_cons, ih, List.take_append_drop]

theorem chunkBatches_mem_length_le {α : Type} (bs : Nat) (l : List α) :
    ∀ b ∈ chunkBatches bs l, b.length ≤ bs := by
  induction l using chunkBatches.induct bs with
  | case1 x hx =>
    intro b hb
    unfold chunkBatches at hb
    rw [dif_pos hx] at hb
    simp at hb
  | case2 x hx ih =>
    intro b hb
    unfold chunkBatches at hb
    rw [dif_neg hx] at hb
    rcases List.mem_cons.mp hb with rfl | hmem
    · rw [List.length_take]
      exact min_le_left _ _
    · exact ih b hmem

theorem missTexts_map_checkCache (cache : EmbCache) (texts : List String) :
    missTexts texts (texts.map (checkCache cache)) =
      texts.filter (fun t => (checkCache cache t).isNone) := by
  induction texts with
  | nil => rfl
  | cons t ts ih =>
    cases hc : checkCache cache t with
    | none => simp [missTexts, hc, ih, List.filter_cons]
    | some v => simp [missTexts, hc, ih, List.filter_cons]

theorem forall2_map_checkCache (cache : EmbCache) (texts : List String) :
    List.Forall₂ (fun t co => ∀ v, co = some v → checkCache cache t = some v)
      texts (texts.map (checkCache cache)) := by
  induction texts with
  | nil => exact List.Forall₂.nil
  | cons t ts ih => exact List.Forall₂.cons (fun v hv => hv) ih

theorem filterMap_id_map_checkCache (oracle : String → Vec) (cache : EmbCache)
    (hagr : cacheAgrees oracle cache) (texts : List String)
    (hall : ∀ t ∈ texts, (checkCache cache t).isSome) :
    (texts.map (checkCache cache)).filterMap id = texts.map oracle := by
  induction texts with
  | nil => rfl
  | cons t ts ih =>
    have hsome := hall t (List.mem_cons_self t ts)
    obtain ⟨v, hv⟩ := Option.isSome_iff_exists.mp hsome
    have hrest := ih (fun t2 ht2 => hall t2 (List.mem_cons_of_mem t ht2))
    simp only [List.map_cons, hv, List.filterMap_cons, id]
    rw [hrest, hagr t v hv]

/-- Specification of the merge loop: when the fresh vectors are exactly
the oracle's answers for the cache misses (which is how `embedAsyncMany`
invokes it), the merged result is the oracle applied to every text in
order, cache consistency is preserved, existing entries survive, and
every input text ends up cached with its oracle vector. -/
theorem mergeFresh_spec (oracle : String → Vec) :
    ∀ (ts : List String) (cos : List (Option Vec)) (cache : EmbCache),
      cacheAgrees oracle cache →
      List.Forall₂ (fun t co => ∀ v, co = some v → checkCache cache t = some v) ts cos →
      (mergeFresh cache ts cos ((missTexts ts cos).map oracle)).1 = ts.map oracle ∧
      cacheAgrees oracle (mergeFresh cache ts cos ((missTexts ts cos).map oracle)).2 ∧
      (∀ t2 v, checkCache cache t2 = some v →
        checkCache (mergeFresh cache ts cos ((missTexts ts cos).map oracle)).2 t2 = some v) ∧
      (∀ t ∈ ts,
        checkCache (mergeFresh cache ts cos ((missTexts ts cos).map oracle)).2 t =
          some (oracle t)) := by
  intro ts
  induction ts with
  | nil =>
    intro cos cache hagr hrel
    cases hrel
    refine ⟨rfl, hagr, fun t2 v h => h, ?_⟩
    intro t ht
    simp at ht
  | cons t ts ih =>
    intro cos cache hagr hrel
    cases hrel with
    | cons hhead htail =>
      rename_i co cos'
      cases co with
      | some c =>
        have hc : checkCache cache t = some c := hhead c rfl
        have hco : c = oracle t := hagr t c hc
        obtain ⟨ha, hb, hpres, hmem⟩ := ih cos' cache hagr htail
        refine ⟨?_, hb, hpres, ?_⟩
        · show c :: (mergeFresh cache ts cos' ((missTexts ts cos').map oracle)).1 =
            (t :: ts).map oracle
          rw [ha, hco, List.map_cons]
        · intro t2 ht2
          show checkCache (mergeFresh cache ts cos' ((missTexts ts cos').map oracle)).2 t2 =
            some (oracle t2)
          rcases List.mem_cons.mp ht2 with rfl | hmem2
          · rw [hpres t2 c hc, hco]
          · exact hmem t2 hmem2
      | none =>
        have hagr2 := cacheAgrees_storeCache oracle cache t hagr
        have hpres0 : ∀ t2 v, checkCache cache t2 = some v →
            checkCache (storeCache cache t (oracle t)) t2 = some v :=
          fun t2 v hv => checkCache_preserved_storeCache oracle cache t t2 v hagr hv
        have htail2 : List.Forall₂
            (fun a co2 => ∀ v, co2 = some v →
              checkCache (storeCache cache t (oracle t)) a = some v) ts cos' :=
          htail.imp (fun a b hab v hv => hpres0 a v (hab v hv))
        obtain ⟨ha, hb, hpres, hmem⟩ :=
          ih cos' (storeCache cache t (oracle t)) hagr2 htail2
        refine ⟨?_, hb, ?_, ?_⟩
        · show oracle t :: (mergeFresh (storeCache cache t (oracle t)) ts cos'
            ((missTexts ts cos').map oracle)).1 = (t :: ts).map oracle
          rw [ha, List.map_cons]
        · intro t2 v hv
          exact hpres t2 v (hpres0 t2 v hv)
        · intro t2 ht2
          rcases List.mem_cons.mp ht2 with rfl | hmem2
          · refine hpres t2 (oracle t2) ?_
            rw [checkCache_storeCache, if_pos rfl]
          · exact hmem t2 hmem2

/-- Branch-level equation for `embedAsyncMany` (the let-bindings of the
definition zeta-reduced), used to case on the three source branches. -/
theorem embedAsyncMany_eq (bs : Nat) (oracle : String → Vec) (cache : EmbCache)
    (texts : List String) :
    embedAsyncMany bs oracle cache texts =
      if texts = [] then ⟨[], cache, []⟩
      else if (texts.map (checkCache cache)).all Option.isSome then
        ⟨(texts.map (checkCache cache)).filterMap id, cache, []⟩
      else
        ⟨(mergeFresh cache texts (texts.map (checkCache cache))
            (((chunkBatches bs (missTexts texts (texts.map (checkCache cache)))).map
              (getEmbeddings oracle)).flatten)).1,
         (mergeFresh cache texts (texts.map (checkCache cache))
            (((chunkBatches bs (missTexts texts (texts.map (checkCache cache)))).map
              (getEmbeddings oracle)).flatten)).2,
         chunkBatches bs (missTexts texts (texts.map (checkCache cache)))⟩ := rfl

/-- Main characterization of `embed_async_many` under a positive batch
size and a service-consistent cache: the result is the service's vector
for every text in input order, the final cache is still consistent, and
every input text is cached with its vector afterwards. -/
theorem embedAsyncMany_spec (bs : Nat) (oracle : String → Vec) (cache : EmbCache)
    (texts : List String) (hbs : 0 < bs) (hagr : cacheAgrees oracle cache) :
    (embedAsyncMany bs oracle cache texts).result = texts.map oracle ∧
    cacheAgrees oracle (embedAsyncMany bs oracle cache texts).cache ∧
    (∀ t ∈ texts,
      checkCache (embedAsyncMany bs oracle cache texts).cache t = some (oracle t)) := by
  rw [embedAsyncMany_eq]
  by_cases hempty : texts = []
  · subst hempty
    refine ⟨rfl, hagr, ?_⟩
    intro t ht
    simp at ht
  · rw [if_neg hempty]
    by_cases hall : (texts.map (checkCache cache)).all Option.isSome
    · rw [if_pos hall]
      have hall2 : ∀ t ∈ texts, (checkCache cache t).isSome := by
        intro t ht
        exact List.all_eq_true.mp hall (checkCache cache t) (List.mem_map_of_mem _ ht)
      refine ⟨filterMap_id_map_checkCache oracle cache hagr texts hall2, hagr, ?_⟩
      intro t ht
      obtain ⟨v, hv⟩ := Option.isSome_iff_exists.mp (hall2 t ht)
      rw [hv, hagr t v hv]
    · rw [if_neg hall]
      have hfresh : (((chunkBatches bs (missTexts texts (texts.map (checkCache cache)))).map
          (getEmbeddings oracle)).flatten) =
          (missTexts texts (texts.map (checkCache cache))).map oracle := by
        rw [show (chunkBatches bs (missTexts texts (texts.map (checkCache cache)))).map
            (getEmbeddings oracle) =
          (chunkBatches bs (missTexts texts (texts.map (checkCache cache)))).map
            (List.map oracle) from rfl]
        rw [← List.map_flatten, chunkBatches_flatten bs hbs]
      rw [hfresh]
      obtain ⟨ha, hb, _, hd⟩ := mergeFresh_spec oracle texts (texts.map (checkCache cache))
        cache hagr (forall2_map_checkCache cache texts)
      exact ⟨ha, hb, hd⟩

/-! ### Claims C4, C6 and C7 — `embed_async_many` -/

/-- C4: `embed_async_many` is length- and order-preserving — the result
equals the remote service's vector for each text at its position, so in
particular the result has the input's length; and for every text `T`,
embedding `[T, T]` yields two identical vectors, each equal to the sole
vector of embedding `[T]` (cache correctness over a service-consistent
cache). -/
theorem embedAsyncMany_order_and_duplicate_correct (bs : Nat)
    (oracle : String → Vec) (cache : EmbCache) (texts : List String) (T : String)
    (hbs : 0 < bs) (hagr : cacheAgrees oracle cache) :
    (embedAsyncMany bs oracle cache texts).result = texts.map oracle ∧
    (embedAsyncMany bs oracle cache texts).result.length = texts.length ∧
    (embedAsyncMany bs oracle cache [T, T]).result = [oracle T, oracle T] ∧
    (embedAsyncMany bs oracle cache [T]).result = [oracle T] := by
  obtain ⟨h1, _, _⟩ := embedAsyncMany_spec bs oracle cache texts hbs hagr
  obtain ⟨h2, _, _⟩ := embedAsyncMany_spec bs oracle cache [T, T] hbs hagr
  obtain ⟨h3, _, _⟩ := embedAsyncMany_spec bs oracle cache [T] hbs hagr
  exact ⟨h1, by rw [h1, List.length_map], by rw [h2]; rfl, by rw [h3]; rfl⟩

/-- C4 witness: the order/duplicate theorem applied to a concrete
length-of-text service, an empty cache and batch size 1. -/
theorem embedAsyncMany_order_and_duplicate_correct_witness :
    0 < 1 ∧ cacheAgrees (fun t => [(t.length : Int)]) [] ∧
    ((embedAsyncMany 1 (fun t => [(t.length : Int)]) [] ["a", "bb"]).result =
        ["a", "bb"].map (fun t => [(t.length : Int)]) ∧
      (embedAsyncMany 1 (fun t => [(t.length : Int)]) [] ["a", "bb"]).result.length =
        (["a", "bb"] : List String).length ∧
      (embedAsyncMany 1 (fun t => [(t.length : Int)]) [] ["c", "c"]).result =
        [[(1 : Int)], [(1 : Int)]] ∧
      (embedAsyncMany 1 (fun t => [(t.length : Int)]) [] ["c"]).result = [[(1 : Int)]]) :=
  ⟨Nat.one_pos, fun _ _ h => Option.noConfusion h,
    embedAsyncMany_order_and_duplicate_correct 1 (fun t => [(t.length : Int)]) []
      ["a", "bb"] "c" Nat.one_pos (fun _ _ h => Option.noConfusion h)⟩

/-- C6: cache hits are resolved without any network call — if every
input text has a cache hit, no request is issued at all; every request
batch that is issued contains at most `batch_size` texts; and the issued
requests carry exactly the uncached texts, in input order, and nothing
else. -/
theorem embedAsyncMany_only_uncached_batched (bs : Nat) (oracle : String → Vec)
    (cache : EmbCache) (texts : List String) (hbs : 0 < bs) :
    ((∀ t ∈ texts, (checkCache cache t).isSome) →
      (embedAsyncMany bs oracle cache texts).requests = []) ∧
    (∀ b ∈ (embedAsyncMany bs oracle cache texts).requests, b.length ≤ bs) ∧
    (embedAsyncMany bs oracle cache texts).requests.flatten =
      texts.filter (fun t => (checkCache cache t).isNone) := by
  rw [embedAsyncMany_eq]
  by_cases hempty : texts = []
  · subst hempty
    refine ⟨fun _ => rfl, ?_, rfl⟩
    intro b hb
    simp at hb
  · rw [if_neg hempty]
    by_cases hall : (texts.map (checkCache cache)).all Option.isSome
    · rw [if_pos hall]
      refine ⟨fun _ => rfl, ?_, ?_⟩
      · intro b hb
        simp at hb
      · show ([] : List String) = texts.filter fun t => (checkCache cache t).isNone
        symm
        rw [List.filter_eq_nil_iff]
        intro t ht
        have hsome := List.all_eq_true.mp hall (checkCache cache t)
          (List.mem_map_of_mem _ ht)
        obtain ⟨v, hv⟩ := Option.isSome_iff_exists.mp hsome
        simp [hv]
    · rw [if_neg hall]
      refine ⟨?_, chunkBatches_mem_length_le bs _, ?_⟩
      · intro hallmem
        exfalso
        apply hall
        rw [List.all_eq_true]
        intro co hco
        obtain ⟨t, ht, rfl⟩ := List.mem_map.mp hco
        exact hallmem t ht
      · show (chunkBatches bs (missTexts texts (texts.map (checkCache cache)))).flatten = _
        rw [chunkBatches_flatten bs hbs, missTexts_map_checkCache]

/-- C6 witness: the batching theorem applied to a two-text input over a
cache holding one of the texts, with batch size 2. -/
theorem embedAsyncMany_only_uncached_batched_witness :
    0 < 2 ∧
    (((∀ t ∈ (["a", "b"] : List String),
        (checkCache [("a", [(7 : Int)])] t).isSome) →
      (embedAsyncMany 2 (fun t => [(t.length : Int)]) [("a", [(7 : Int)])]
        ["a", "b"]).requests = []) ∧
    (∀ b2 ∈ (embedAsyncMany 2 (fun t => [(t.length : Int)]) [("a", [(7 : Int)])]
        ["a", "b"]).requests, b2.length ≤ 2) ∧
    (embedAsyncMany 2 (fun t => [(t.length : Int)]) [("a", [(7 : Int)])]
        ["a", "b"]).requests.flatten =
      (["a", "b"] : List String).filter
        (fun t => (checkCache [("a", [(7 : Int)])] t).isNone)) :=
  ⟨Nat.le.step Nat.le.refl,
    embedAsyncMany_only_uncached_batched 2 (fun t => [(t.length : Int)])
      [("a", [(7 : Int)])] ["a", "b"] (Nat.le.step Nat.le.refl)⟩

/-- C7: after a successful `embed_async_many` call, every input text is
present in the cache, bound to exactly the vector that appears at its
position in the returned result. -/
theorem embedAsyncMany_caches_every_result (bs : Nat) (oracle : String → Vec)
    (cache : EmbCache) (texts : List String) (hbs : 0 < bs)
    (hagr : cacheAgrees oracle cache) :
    ∀ i, (h : i < texts.length) →
      checkCache (embedAsyncMany bs oracle cache texts).cache (texts.get ⟨i, h⟩) =
        some ((embedAsyncMany bs oracle cache texts).result.getD i []) := by
  obtain ⟨hres, _, hmem⟩ := embedAsyncMany_spec bs oracle cache texts hbs hagr
  intro i hi
  rw [hres]
  have hgetD : (texts.map oracle).getD i [] = oracle (texts.get ⟨i, hi⟩) := by
    rw [List.getD_eq_getElem?_getD, List.getElem?_map, List.getElem?_eq_getElem hi]
    rfl
  rw [hgetD]
  exact hmem _ (List.get_mem texts i hi)

/-- C7 witness: the cache-write theorem applied to a two-text input (one
hit, one miss) at index 1 — the miss — and index 0 — the hit. -/
theorem embedAsyncMany_caches_every_result_witness :
    0 < 2 ∧ cacheAgrees (fun t => [(t.length : Int)]) [("a", [(1 : Int)])] ∧
    (checkCache (embedAsyncMany 2 (fun t => [(t.length : Int)]) [("a", [(1 : Int)])]
        ["a", "bb"]).cache ((["a", "bb"] : List String).get ⟨0, by decide⟩) =
      some ((embedAsyncMany 2 (fun t => [(t.length : Int)]) [("a", [(1 : Int)])]
        ["a", "bb"]).result.getD 0 [])) ∧
    (checkCache (embedAsyncMany 2 (fun t => [(t.length : Int)]) [("a", [(1 : Int)])]
        ["a", "bb"]).cache ((["a", "bb"] : List String).get ⟨1, by decide⟩) =
      some ((embedAsyncMany 2 (fun t => [(t.length : Int)]) [("a", [(1 : Int)])]
        ["a", "bb"]).result.getD 1 [])) := by
  have hagr : cacheAgrees (fun t => [(t.length : Int)]) [("a", [(1 : Int)])] := by
    intro t v hv
    unfold checkCache lookupEntry at hv
    by_cases h : "a" = t
    · rw [if_pos h] at hv
      cases hv
      rw [← h]
      rfl
    · rw [if_neg h] at hv
      exact Option.noConfusion hv
  refine ⟨Nat.le.step Nat.le.refl, hagr, ?_, ?_⟩
  · exact embedAsyncMany_caches_every_result 2 (fun t => [(t.length : Int)])
      [("a", [(1 : Int)])] ["a", "bb"] (Nat.le.step Nat.le.refl) hagr 0 (by decide)
  · exact embedAsyncMany_caches_every_result 2 (fun t => [(t.length : Int)])
      [("a", [(1 : Int)])] ["a", "bb"] (Nat.le.step Nat.le.refl) hagr 1 (by decide)

end Sentio
